import Mathlib

/-!
Verification of the addurls plugin (datalad/plugin/addurls.py).

The development embeds the pure core of the plugin: the custom `string.Formatter`
subclass (`Formatter.get_value`), the repetition disambiguator
(`RepFormatter.format`), `clean_meta_args`, `get_subpaths`,
`is_legal_metafield` / `filter_legal_metafield`, `get_url_names`,
`fmt_to_name`, `get_fmt_names`, the `extract` pipeline, and the
duplicate-filename check performed by `dlplugin` right after `extract`.

Python dictionaries are modeled as association lists in insertion order
(assignment to an existing key updates the value in place, a new key is
appended).  Python strings are Lean strings; only ASCII behavior is relied
upon.  Templates are modeled by their parsed token lists (literal text and
placeholders), which is the shape `string.Formatter.parse` produces.
Exceptions are modeled with `Except`.
-/

set_option maxRecDepth 4000

deriving instance DecidableEq for Except

/-- Lookup in an insertion-ordered association list, first match wins
(Python dictionaries have unique keys, so first match is the match). -/
def lookupAssoc {β : Type} : List (String × β) → String → Option β
  | [], _ => none
  | (k0, v0) :: rest, k => if k0 = k then some v0 else lookupAssoc rest k

/-- Dictionary assignment `d[k] = v`: update in place if the key exists,
otherwise append at the end (Python dict insertion order). -/
def dictSet {β : Type} : List (String × β) → String → β → List (String × β)
  | [], k, v => [(k, v)]
  | (k0, v0) :: rest, k, v =>
      if k0 = k then (k0, v) :: rest else (k0, v0) :: dictSet rest k v

/-- Dictionary `d.update(other)`: assign every pair of `other` in order. -/
def dictUpdate {β : Type} (d : List (String × β)) (other : List (String × β)) :
    List (String × β) :=
  other.foldl (fun acc kv => dictSet acc kv.1 kv.2) d

/-- Characters stripped by Python `str.strip()` (ASCII whitespace). -/
def pyIsSpace (c : Char) : Bool :=
  c = ' ' || c = '\t' || c = '\n' || c = '\r' || c = '\x0b' || c = '\x0c'

/-- Python `str.strip()` on ASCII data. -/
def pyStrip (s : String) : String :=
  String.mk (((s.toList.dropWhile pyIsSpace).reverse.dropWhile pyIsSpace).reverse)

/-- Scalar value held in a row: a string or an integer (the synthetic
`_repindex` field is an integer, everything read from csv is a string). -/
inductive Value where
  | str (s : String)
  | int (n : Int)
deriving DecidableEq

/-- Row of the record source: a Python dict from field name to value. -/
abbrev Row := List (String × Value)

/-- Field reference of a placeholder: `{name}` or a positional `{N}`. -/
inductive FieldRef where
  | name (s : String)
  | pos (n : Nat)
deriving DecidableEq

/-- Conversion flag of a placeholder: none, or the custom `!l` (lowercase). -/
inductive Conv where
  | noconv
  | lower
deriving DecidableEq

/-- Placeholder: a field reference plus its conversion flag. -/
structure Ph where
  fld : FieldRef
  conv : Conv
deriving DecidableEq

/-- Token of a parsed format string: literal text or a placeholder. -/
inductive Tok where
  | lit (s : String)
  | ph (p : Ph)
deriving DecidableEq

/-- Parsed format string, the shape `string.Formatter.parse` yields.
Auto-numbered fields (`{}`) are not used by the plugin and are not
represented; `{N}` is `FieldRef.pos N`. -/
abbrev Template := List Tok

/-- The `idx_to_name` map of `Formatter`: positional index to column name. -/
abbrev IdxMap := List (Nat × String)

/-- Lookup in the positional-index map. -/
def lookupIdx : IdxMap → Nat → Option String
  | [], _ => none
  | (i, s) :: rest, n => if i = n then some s else lookupIdx rest n

/-- Errors raised by the embedded code: `KeyError`, `IndexError`,
`ValueError`. -/
inductive FmtErr where
  | keyError (k : String)
  | indexError
  | valueError (msg : String)
deriving DecidableEq

/-- Result of `Formatter.get_value`: a scalar from the row, or the row
mapping itself (what `string.Formatter.get_value` returns for the integer
key 0, since every call site passes the row as the only positional arg). -/
inductive GotVal where
  | val (v : Value)
  | rowval (r : Row)
deriving DecidableEq

/-- Missing-value substitution of `Formatter.get_value`: when a missing
value is configured and the looked-up value is the empty string, use the
missing value instead (`value or self.missing`, strings only). -/
def substMissing (missing : Option String) : Value → Value
  | .str s =>
      match missing with
      | some m => if s = "" then .str m else .str s
      | none => .str s
  | v => v

/-- The single-quote character, used by the Python `repr` of strings. -/
def pyQuoteChar : Char := '\x27'

/-- Python `repr` of a short ASCII string (quote escaping not modeled; no
reachable input of the plugin formats a quoted dict). -/
def pyStrRepr (s : String) : String :=
  String.mk (pyQuoteChar :: s.toList ++ [pyQuoteChar])

/-- Python `repr` of a scalar value. -/
def pyValRepr : Value → String
  | .str s => pyStrRepr s
  | .int n => toString n

/-- Python `str` of a dict of scalars, e.g. `{'a': 'b', 'n': 3}`. -/
def pyDictRepr (r : Row) : String :=
  "\x7b" ++ String.intercalate ", "
      (r.map (fun kv => pyStrRepr kv.1 ++ ": " ++ pyValRepr kv.2)) ++ "\x7d"

/-- Embedding of `Formatter.get_value` (addurls.py lines 60-83): a positional key is
translated through `idx_to_name` (a missing index raises `KeyError`);
the value is then looked up in the row with missing-value substitution;
an absent field falls back to `string.Formatter.get_value`, which raises
`KeyError` for a named key (the keyword arguments are always empty at
every call site) and indexes the positional args for an integer key
(the row itself for 0, `IndexError` otherwise). -/
def getValue (idx : IdxMap) (missing : Option String) (f : FieldRef) (row : Row) :
    Except FmtErr GotVal :=
  match f with
  | .name s =>
      match lookupAssoc row s with
      | some v => .ok (.val (substMissing missing v))
      | none => .error (.keyError s)
  | .pos n =>
      match lookupIdx idx n with
      | none => .error (.keyError (toString n))
      | some nm =>
          match lookupAssoc row nm with
          | some v => .ok (.val (substMissing missing v))
          | none => if n = 0 then .ok (.rowval row) else .error .indexError

/-- Python `str(value)` for the fetched value. -/
def renderGot : GotVal → String
  | .val (.str s) => s
  | .val (.int n) => toString n
  | .rowval r => pyDictRepr r

/-- Python `str.lower()` (ASCII). -/
def pyLower (s : String) : String := String.mk (s.toList.map Char.toLower)

/-- Embedding of `Formatter.convert_field`: the custom `l` conversion lowercases the
stringified value; no conversion leaves it alone. -/
def applyConv : Conv → String → String
  | .noconv, s => s
  | .lower, s => pyLower s

/-- Interpolation loop of `Formatter.format` (string.Formatter.vformat):
literals are appended, placeholders are fetched via `getValue`, converted
and appended; the first exception aborts. -/
def resolveTemplateAux (idx : IdxMap) (missing : Option String) (row : Row) :
    List Tok → String → Except FmtErr String
  | [], acc => .ok acc
  | .lit s :: rest, acc => resolveTemplateAux idx missing row rest (acc ++ s)
  | .ph p :: rest, acc =>
      match getValue idx missing p.fld row with
      | .error e => .error e
      | .ok g => resolveTemplateAux idx missing row rest (acc ++ applyConv p.conv (renderGot g))

/-- Embedding of `Formatter.format` applied to one template and one row. -/
def resolveTemplate (idx : IdxMap) (missing : Option String) (tmpl : Template)
    (row : Row) : Except FmtErr String :=
  resolveTemplateAux idx missing row tmpl ""

/-- The `repeats` table of `RepFormatter`: resolved string to repeat count. -/
abbrev Repeats := List (String × Nat)

/-- Resolution of a template with the synthetic `_repindex` field set: the
`RepFormatter.get_value` override assigns `args[0]["_repindex"] =
self.repindex` before every fetch, so the row carries the current index. -/
def resolveWithRep (idx : IdxMap) (missing : Option String) (tmpl : Template)
    (row : Row) (k : Nat) : Except FmtErr String :=
  resolveTemplate idx missing tmpl (dictSet row "_repindex" (.int k))

/-- Embedding of `RepFormatter.format` (addurls.py lines 100-109): resolve once with
`_repindex = 0`; if that result was seen before, bump its repeat count,
re-resolve once with the new index and return that second result (which
is neither looked up in `repeats` nor recorded there); otherwise record
the result with count 0 and return it. -/
def repformat (idx : IdxMap) (missing : Option String) (tmpl : Template)
    (row : Row) (repeats : Repeats) : Except FmtErr (String × Repeats) :=
  match resolveWithRep idx missing tmpl row 0 with
  | .error e => .error e
  | .ok result =>
      match lookupAssoc repeats result with
      | some c =>
          match resolveWithRep idx missing tmpl row (c + 1) with
          | .error e => .error e
          | .ok result2 => .ok (result2, dictSet repeats result (c + 1))
      | none => .ok (result, dictSet repeats result 0)

/-- Run of one `RepFormatter` instance over a list of rows, returning the
resolved strings in row order. -/
def repFormatRunAux (idx : IdxMap) (missing : Option String) (tmpl : Template)
    (repeats : Repeats) : List Row → Except FmtErr (List String)
  | [] => .ok []
  | r :: rs =>
      match repformat idx missing tmpl r repeats with
      | .error e => .error e
      | .ok (s, reps) =>
          match repFormatRunAux idx missing tmpl reps rs with
          | .error e => .error e
          | .ok rest => .ok (s :: rest)

/-- Run of a fresh `RepFormatter` (empty `repeats`) over a list of rows. -/
def repFormatRun (idx : IdxMap) (missing : Option String) (tmpl : Template)
    (rows : List Row) : Except FmtErr (List String) :=
  repFormatRunAux idx missing tmpl [] rows

/-- Python `arg.split("=", 1)`: one or two pieces, cut at the first `=`. -/
def pySplitEq1 (s : String) : List String :=
  match s.toList.findIdx? (fun c => c = '=') with
  | none => [s]
  | some i => [String.mk (s.toList.take i), String.mk (s.toList.drop (i + 1))]

/-- Loop of `clean_meta_args` (addurls.py lines 116-142), consuming the
lazily-resolved arguments one by one: split each at the first `=` and
strip both pieces; no `=` raises `ValueError`, an empty (stripped) field
name raises `ValueError`, an empty (stripped) value is skipped, every
other pair is assigned into the result dict. -/
def clean_meta_args_core (acc : List (String × String)) :
    List (Except FmtErr String) → Except FmtErr (List (String × String))
  | [] => .ok acc
  | .error e :: _ => .error e
  | .ok arg :: rest =>
      match (pySplitEq1 arg).map pyStrip with
      | [field, value] =>
          if field = "" then .error (.valueError "Empty field name")
          else if value = "" then clean_meta_args_core acc rest
          else clean_meta_args_core (dictSet acc field value) rest
      | _ => .error (.valueError "meta argument is not in field=value format")

/-- Embedding of `clean_meta_args` on an already-resolved list of strings. -/
def clean_meta_args (args : List String) : Except FmtErr (List (String × String)) :=
  clean_meta_args_core [] (args.map .ok)

/-- Whether the character list contains the `//` boundary marker. -/
def pyContainsDslash : List Char → Bool
  | '/' :: '/' :: _ => true
  | _ :: rest => pyContainsDslash rest
  | [] => false

/-- Python `split("//")`: greedy leftmost, non-overlapping. -/
def splitDslash : List Char → List (List Char)
  | '/' :: '/' :: rest => [] :: splitDslash rest
  | c :: rest =>
      match splitDslash rest with
      | [] => [[c]]
      | h :: t => (c :: h) :: t
  | [] => [[]]

/-- Python `replace("//", "/")`: greedy leftmost, non-overlapping. -/
def replaceDslash : List Char → List Char
  | '/' :: '/' :: rest => '/' :: replaceDslash rest
  | c :: rest => c :: replaceDslash rest
  | [] => []

/-- Whether a string starts with the separator character. -/
def strStartsWithSlash (s : String) : Bool :=
  match s.toList with
  | '/' :: _ => true
  | _ => false

/-- Whether a string ends with the separator character. -/
def strEndsWithSlash (s : String) : Bool :=
  s.toList.getLast? = some '/'

/-- Python `s.startswith(p)`. -/
def strStartsWith (p s : String) : Bool :=
  p.toList.isPrefixOf s.toList

/-- Embedding of `os.path.join` for two pieces (posix): an absolute second piece wins;
otherwise a separator is inserted unless one is already there. -/
def osPathJoin (a b : String) : String :=
  if strStartsWithSlash b then b
  else if a = "" ∨ strEndsWithSlash a then a ++ b
  else a ++ "/" ++ b

/-- Embedding of `os.path.join(*xs)` for a non-empty argument list: left fold. -/
def osPathJoinList : List String → String
  | [] => ""
  | x :: xs => xs.foldl osPathJoin x

/-- Embedding of `get_subpaths` (addurls.py lines 145-172): no marker returns the path
unchanged with an empty list; otherwise each marker-delimited part except
the last contributes `os.path.join(*(spaths + [part]))` where `spaths`
holds every previously computed subpath, and the flat path has the
markers replaced by single separators. -/
def get_subpaths (filename : String) : String × List String :=
  if pyContainsDslash filename.toList = false then (filename, [])
  else
    let parts := (splitDslash filename.toList).map String.mk
    let spaths := parts.dropLast.foldl
      (fun sp part => sp ++ [osPathJoinList (sp ++ [part])]) []
    (String.mk (replaceDslash filename.toList), spaths)

/-- Subpath computation as the docstring and the spec describe it: the
cumulative boundary paths are the accumulation `itertools.accumulate(
filename.split("//")[:-1], os.path.join)`, i.e. each boundary joins one
more component onto the previous boundary. -/
def get_subpaths_spec (filename : String) : String × List String :=
  if pyContainsDslash filename.toList = false then (filename, [])
  else
    let parts := (splitDslash filename.toList).map String.mk
    let spaths :=
      match parts.dropLast with
      | [] => []
      | p :: ps => List.scanl osPathJoin p ps
    (String.mk (replaceDslash filename.toList), spaths)

/-- ASCII alphanumeric test, the `[a-zA-Z0-9]` class of the metafield
regex. -/
def isAsciiAlnum (c : Char) : Bool :=
  ('a' ≤ c && c ≤ 'z') || ('A' ≤ c && c ≤ 'Z') || ('0' ≤ c && c ≤ '9')

/-- Tail character class `[a-zA-Z0-9_.-]` of the metafield regex. -/
def isLegalTailChar (c : Char) : Bool :=
  isAsciiAlnum c || c = '_' || c = '.' || c = '-'

/-- Embedding of `is_legal_metafield` (addurls.py lines 175-181): the anchored regex
`[a-zA-Z0-9][a-zA-Z0-9_.-]*` matched against the whole string. -/
def is_legal_metafield (name : String) : Bool :=
  match name.toList with
  | [] => false
  | c :: cs => isAsciiAlnum c && cs.all isLegalTailChar

/-- Embedding of `filter_legal_metafield` (addurls.py lines 184-197): keep the legal
names, in order (illegal ones are only logged). -/
def filter_legal_metafield : List String → List String
  | [] => []
  | f :: fs =>
      if is_legal_metafield f then f :: filter_legal_metafield fs
      else filter_legal_metafield fs

/-- Embedding of `get_fmt_names`: the non-empty field names of a format string, in
order (a positional field appears as its digit string). -/
def fmtNames (tmpl : Template) : List String :=
  tmpl.filterMap (fun t =>
    match t with
    | .lit _ => none
    | .ph p =>
        match p.fld with
        | .name s => if s = "" then none else some s
        | .pos n => some (toString n))

/-- Name of a placeholder for `fmt_to_name`: a positional field is sent
through `num_to_name`, falling back to its digit string; an empty name
yields nothing. -/
def fieldToNameOpt (numToName : IdxMap) (p : Ph) : Option String :=
  match p.fld with
  | .name s => if s = "" then none else some s
  | .pos n => some ((lookupIdx numToName n).getD (toString n))

/-- Embedding of `fmt_to_name` (addurls.py lines 208-239): a format string that is a
single placeholder with no surrounding text maps to the name of that
placeholder, otherwise nothing. -/
def fmt_to_name (tmpl : Template) (numToName : IdxMap) : Option String :=
  match tmpl with
  | [.ph p] => fieldToNameOpt numToName p
  | _ => none

/-- Characters allowed in a URL scheme (`scheme_chars` of urllib). -/
def schemeChar (c : Char) : Bool :=
  c.isAlpha || c.isDigit || c = '+' || c = '-' || c = '.'

/-- Scheme removal step of `urlsplit`: cut at the first `:` when every
character before it is a scheme character and it is not first. -/
def dropScheme (cs : List Char) : List Char :=
  match cs.findIdx? (fun c => c = ':') with
  | none => cs
  | some i =>
      if 0 < i ∧ (cs.take i).all schemeChar then cs.drop (i + 1) else cs

/-- Netloc extraction of `urlsplit`: everything after `//` up to the first
`/`, `?` or `#`; the rest (delimiter included) is kept. -/
def netlocSplit (cs : List Char) : List Char × List Char :=
  (cs.takeWhile (fun c => !(c = '/' || c = '?' || c = '#')),
   cs.dropWhile (fun c => !(c = '/' || c = '?' || c = '#')))

/-- Prefix of a character list before the first occurrence of `d`. -/
def takeUntilChar (d : Char) (cs : List Char) : List Char :=
  cs.takeWhile (fun c => c != d)

/-- Authority and path of a URL, per `urllib.parse.urlsplit`: optional
scheme removal, optional `//`-introduced netloc, then fragment and query
are cut off the remainder. -/
def urlNetlocPath (url : String) : String × String :=
  let rest := dropScheme url.toList
  let nl :=
    match rest with
    | '/' :: '/' :: tail => netlocSplit tail
    | _ => ([], rest)
  (String.mk nl.1, String.mk (takeUntilChar '?' (takeUntilChar '#' nl.2)))

/-- Python `split("/")` on a character list. -/
def splitSlashChar : List Char → List (List Char)
  | [] => [[]]
  | '/' :: rest => [] :: splitSlashChar rest
  | c :: rest =>
      match splitSlashChar rest with
      | [] => [[c]]
      | h :: t => (c :: h) :: t

/-- Strip leading and trailing `/` characters (Python `path.strip("/")`). -/
def stripSlashes (s : String) : String :=
  String.mk (((s.toList.dropWhile (fun c => c = '/')).reverse.dropWhile
      (fun c => c = '/')).reverse)

/-- Embedding of `get_url_names` (addurls.py lines 273-300): no authority yields an
empty dict; otherwise `_url_hostname`, then `_url0 .. _urlN` for the
separator-split parts of the stripped path (when non-empty), then
`_url_basename` for the last part. -/
def get_url_names (url : String) : List (String × String) :=
  let np := urlNetlocPath url
  if np.1 = "" then []
  else
    let path := stripSlashes np.2
    if path = "" then [("_url_hostname", np.1)]
    else
      let url_parts := (splitSlashChar path.toList).map String.mk
      ([("_url_hostname", np.1)]
        ++ url_parts.enum.map (fun pp => ("_url" ++ toString pp.1, pp.2)))
        ++ [("_url_basename", url_parts.getLastD "")]

/-- URL-derived fields as the spec words them: `_url_hostname` always
(given an authority), `_url0 .. _urlN` for the segments in order (the
i-th key carries the i-th segment) and `_url_basename` equal to the last
segment. -/
def get_url_names_claim (url : String) : List (String × String) :=
  let np := urlNetlocPath url
  if np.1 = "" then []
  else
    let path := stripSlashes np.2
    if path = "" then [("_url_hostname", np.1)]
    else
      let segs := (splitSlashChar path.toList).map String.mk
      [("_url_hostname", np.1)]
        ++ ((List.range segs.length).map
              (fun i => ("_url" ++ toString i, segs.getD i "")))
        ++ [("_url_basename", segs.getLastD "")]

/-- Descriptor contents after the URL pass of `extract`: resolved URL and
cleaned metadata arguments. -/
structure PartialInfo where
  url : String
  meta_args : List (String × String)
deriving DecidableEq

/-- Full per-row descriptor returned by `extract`. -/
structure RowInfo where
  url : String
  filename : String
  subpath : Option String
  meta_args : List (String × String)
deriving DecidableEq

/-- Ordered ascending comparison of strings by code point, as Python
compares them. -/
def listCharLe : List Char → List Char → Bool
  | [], _ => true
  | _ :: _, [] => false
  | x :: xs, y :: ys => if x = y then listCharLe xs ys else decide (x < y)

/-- String comparison for `sorted`. -/
def strLeB (a b : String) : Bool := listCharLe a.toList b.toList

/-- Insertion into an ascending list. -/
def sortInsert (x : String) : List String → List String
  | [] => [x]
  | y :: ys => if strLeB x y then x :: y :: ys else y :: sortInsert x ys

/-- Python `sorted` on strings (ascending by code point). -/
def pySorted : List String → List String
  | [] => []
  | x :: xs => sortInsert x (pySorted xs)

/-- First-occurrence deduplication, for dict key views. -/
def dedupFirstAux (seen : List String) : List String → List String
  | [] => []
  | x :: xs =>
      if x ∈ seen then dedupFirstAux seen xs
      else x :: dedupFirstAux (x :: seen) xs

/-- Keys of a row, in insertion order and without duplicates. -/
def rowKeys (r : Row) : List String := dedupFirstAux [] (r.map Prod.fst)

/-- Auto-metadata template `c + "=" + "{" + c + "}"` synthesized for a
column (the column names reaching this point contain no special characters of
the format mini-language other than `.` and `-`; the name is
modeled as a plain row key). -/
def metaTemplate (c : String) : Template :=
  [Tok.lit (c ++ "="), Tok.ph ⟨FieldRef.name c, Conv.noconv⟩]

/-- Auto-metadata column selection of `extract` (addurls.py lines
328-338), reached only when `exclude_autometa` is neither `*` nor the
empty string: the sorted keys of the first row (an empty record set
raises `IndexError` here), minus the column the URL template maps to,
minus the columns matching the exclusion pattern (`re.search` is taken as
an oracle parameter), filtered for legality. -/
def autoMetaCols (reSearch : String → String → Bool) (rows : List Row)
    (colidx : IdxMap) (url_format : Template) (exclude : Option String) :
    Except FmtErr (List String) :=
  match rows with
  | [] => .error .indexError
  | r0 :: _ =>
      let urlcol := fmt_to_name url_format colidx
      let cols := pySorted (rowKeys r0)
      let cols := cols.filter (fun c => urlcol ≠ some c)
      let cols :=
        match exclude with
        | some pat => if pat = "" then cols else cols.filter (fun c => !(reSearch pat c))
        | none => cols
      .ok (filter_legal_metafield cols)

/-- URL pass of `extract` (addurls.py lines 344-352): resolve the URL
template for each row in order; a row whose URL is empty or equal to the
missing value is dropped; for a surviving row the metadata templates are
resolved lazily and consumed by `clean_meta_args`. -/
def extractLoop (colidx : IdxMap) (missing : Option String) (uf : Template)
    (fm : List Template) : List Row → Except FmtErr (List Row × List PartialInfo)
  | [] => .ok ([], [])
  | row :: rest =>
      match resolveTemplate colidx missing uf row with
      | .error e => .error e
      | .ok url =>
          if url = "" ∨ missing = some url then extractLoop colidx missing uf fm rest
          else
            match clean_meta_args_core []
                (fm.map (fun t => resolveTemplate colidx missing t row)) with
            | .error e => .error e
            | .ok margs =>
                match extractLoop colidx missing uf fm rest with
                | .error e => .error e
                | .ok (rs, is) => .ok (row :: rs, ⟨url, margs⟩ :: is)

/-- Set union `subpaths |= set(spaths)`, modeled with insertion order. -/
def unionAppend (acc : List String) (xs : List String) : List String :=
  xs.foldl (fun a x => if x ∈ a then a else a ++ [x]) acc

/-- Embedding of `_format_filenames` (addurls.py lines 262-270) with the `RepFormatter`
state threaded through: the filename of each row is resolved through the
disambiguator, decomposed by `get_subpaths`, its subpaths joined into the
set of the run, and the descriptor completed with flat filename and deepest
subpath. -/
def formatFilenamesAux (colidx : IdxMap) (missing : Option String)
    (ff : Template) (repeats : Repeats) (subpaths : List String) :
    List Row → List PartialInfo → Except FmtErr (List RowInfo × List String)
  | [], _ => .ok ([], subpaths)
  | _ :: _, [] => .ok ([], subpaths)
  | row :: rows, pi :: pis =>
      match repformat colidx missing ff row repeats with
      | .error e => .error e
      | .ok (fname, reps) =>
          let fs := get_subpaths fname
          match formatFilenamesAux colidx missing ff reps
              (unionAppend subpaths fs.2) rows pis with
          | .error e => .error e
          | .ok (ris, subF) =>
              .ok (⟨pi.url, fs.1, fs.2.getLast?, pi.meta_args⟩ :: ris, subF)

/-- Embedding of `extract` (addurls.py lines 303-369), from the point where `_read` has
produced the rows and the positional-index map: auto-metadata derivation,
the URL pass, URL-derived field injection when the filename template
mentions a `_url*` placeholder, and the filename pass. -/
def extract (reSearch : String → String → Bool) (rows : List Row)
    (colidx : IdxMap) (url_format filename_format : Template)
    (exclude_autometa : Option String) (meta : List Template)
    (missing_value : Option String) :
    Except FmtErr (List RowInfo × List String) :=
  match (if exclude_autometa = some "*" ∨ exclude_autometa = some "" then
          (.ok [] : Except FmtErr (List Template))
        else
          match autoMetaCols reSearch rows colidx url_format exclude_autometa with
          | .error e => .error e
          | .ok cols => .ok (cols.map metaTemplate)) with
  | .error e => .error e
  | .ok auto =>
      match extractLoop colidx missing_value url_format (meta ++ auto) rows with
      | .error e => .error e
      | .ok (rws, pis) =>
          formatFilenamesAux colidx missing_value filename_format [] []
            (if (fmtNames filename_format).any (fun n => strStartsWith "_url" n) then
              List.zipWith
                (fun row pi => dictUpdate row
                  ((get_url_names pi.url).map (fun kv => (kv.1, Value.str kv.2))))
                rws pis
            else rws) pis

/-- Outcome of the duplicate-filename check in `dlplugin`. -/
inductive PluginStep where
  | collisionError (msg : String)
  | proceed
deriving DecidableEq

/-- The batch-level collision message of `dlplugin`. -/
def collisionMsg : String :=
  "There are file name collisions; consider using \x7b_repindex\x7d"

/-- Duplicate-filename check of `dlplugin` (addurls.py lines 644-650):
when the number of descriptors differs from the number of distinct
filenames, a single batch-level error is yielded and the function
returns; otherwise processing proceeds. -/
def dlplugin_filename_check (infos : List RowInfo) : PluginStep :=
  if infos.length ≠ (infos.map (fun i => i.filename)).dedup.length then
    .collisionError collisionMsg
  else .proceed

/-- Position of the first `=`: the two surrounding pieces, or nothing. -/
def splitFirstEq (s : String) : Option (String × String) :=
  match s.toList.findIdx? (fun c => c = '=') with
  | none => none
  | some i => some (String.mk (s.toList.take i), String.mk (s.toList.drop (i + 1)))

/-- Metadata-argument contract, amended formulation: split each argument at
the first `=` (no `=` is a fatal error), strip whitespace from both
pieces, reject an empty stripped name, silently skip an empty stripped
value, and otherwise assign the stripped name to the stripped value. -/
def clean_meta_args_spec (args : List String) : Except FmtErr (List (String × String)) :=
  args.foldlM (fun acc arg =>
    match splitFirstEq arg with
    | none => .error (.valueError "meta argument is not in field=value format")
    | some fv =>
        let field := pyStrip fv.1
        let value := pyStrip fv.2
        if field = "" then .error (.valueError "Empty field name")
        else if value = "" then .ok acc
        else .ok (dictSet acc field value)) []

/-- Metadata-argument behavior exactly as the claim words it, with no
whitespace stripping: fatal on a missing `=`, fatal on an empty name
(the text before the first `=`), skip on an empty value (the text after
the first `=`), and otherwise map that name to that value. -/
def clean_meta_args_claimed (args : List String) : Except FmtErr (List (String × String)) :=
  args.foldlM (fun acc arg =>
    match splitFirstEq arg with
    | none => .error (.valueError "meta argument is not in field=value format")
    | some fv =>
        if fv.1 = "" then .error (.valueError "Empty field name")
        else if fv.2 = "" then .ok acc
        else .ok (dictSet acc fv.1 fv.2)) []

/-- Row-survival test of the URL pass: the URL template resolves and the
result is neither empty nor equal to the missing value. -/
def keepRow (colidx : IdxMap) (missing : Option String) (uf : Template) (r : Row) : Bool :=
  match resolveTemplate colidx missing uf r with
  | .ok url => if url = "" ∨ missing = some url then false else true
  | .error _ => false

/-- Example template `{name}{_repindex}`. -/
def tmplNameRep : Template :=
  [Tok.ph ⟨FieldRef.name "name", Conv.noconv⟩,
   Tok.ph ⟨FieldRef.name "_repindex", Conv.noconv⟩]

/-- Example row with a single `name` column. -/
def rowName (s : String) : Row := [("name", Value.str s)]

/-- Example run of twelve rows: one `a1` row followed by eleven `a` rows. -/
def rows12 : List Row := rowName "a1" :: List.replicate 11 (rowName "a")

/-- Disambiguator outputs for `rows12` under `tmplNameRep`: the first and
the last coincide. -/
def outs12 : List String :=
  ["a10", "a0", "a1", "a2", "a3", "a4", "a5", "a6", "a7", "a8", "a9", "a10"]

/-- Resolution of `tmplNameRep` on a `name = "a"` row as a function of the
repetition index. -/
def repA (k : Nat) : String := "a" ++ toString k

/-- Three identical example rows. -/
def rowsAAA : List Row := [rowName "a", rowName "a", rowName "a"]

/-- Example URL template `{link}`. -/
def ufLink : Template := [Tok.ph ⟨FieldRef.name "link", Conv.noconv⟩]

/-- Example filename template `{who}.{ext}` (no `_repindex`). -/
def ffWhoExt : Template :=
  [Tok.ph ⟨FieldRef.name "who", Conv.noconv⟩, Tok.lit ".",
   Tok.ph ⟨FieldRef.name "ext", Conv.noconv⟩]

/-- Two example rows that resolve to the same filename `a.png`. -/
def rowsDup : List Row :=
  [[("who", Value.str "a"), ("ext", Value.str "png"), ("link", Value.str "u1")],
   [("who", Value.str "a"), ("ext", Value.str "png"), ("link", Value.str "u2")]]

/-- The two duplicate-filename descriptors `extract` returns for `rowsDup`. -/
def infosDup : List RowInfo :=
  [⟨"u1", "a.png", none, []⟩, ⟨"u2", "a.png", none, []⟩]

/-! Helper lemmas. -/

theorem lookupAssoc_dictSet_ne {β : Type} (l : List (String × β)) (k : String)
    (v : β) (k' : String) (h : k' ≠ k) :
    lookupAssoc (dictSet l k v) k' = lookupAssoc l k' := by
  have hkk : ¬ k = k' := fun hh => h hh.symm
  induction l with
  | nil => simp [dictSet, lookupAssoc, hkk]
  | cons kv rest ih =>
      obtain ⟨k0, v0⟩ := kv
      by_cases h0 : k0 = k
      · subst h0
        simp [dictSet, lookupAssoc, hkk]
      · simp [dictSet, h0, lookupAssoc, ih]

theorem length_dedup_eq_iff (l : List String) :
    l.dedup.length = l.length ↔ l.Nodup := by
  constructor
  · intro h
    exact List.dedup_eq_self.mp ((List.dedup_sublist l).eq_of_length h)
  · intro h
    rw [List.dedup_eq_self.mpr h]

/-! Claim C3. -/

/-- C3: `get_subpaths` is claimed to return, for a path with boundary
markers, the cumulative boundary paths, each the full accumulated path up
to and including its marker.  The code is wrong for three or more
markers: joining all previously accumulated subpaths again (instead of
accumulating pairwise, as the docstring of the function states via
`itertools.accumulate`) duplicates the earlier components, so
`"a//b//c//file"` yields the third boundary `"a/a/b/c"` instead of
`"a/b/c"`.  The two-marker docstring example is unaffected. -/
theorem get_subpaths_accumulation_bug :
    get_subpaths "a//b//c//file" = ("a/b/c/file", ["a", "a/b", "a/a/b/c"]) ∧
    get_subpaths_spec "a//b//c//file" = ("a/b/c/file", ["a", "a/b", "a/b/c"]) ∧
    get_subpaths "a//b//c//file" ≠ get_subpaths_spec "a//b//c//file" ∧
    get_subpaths "p1/p2//p3/p4//file" =
      ("p1/p2/p3/p4/file", ["p1/p2", "p1/p2/p3/p4"]) ∧
    get_subpaths_spec "p1/p2//p3/p4//file" =
      ("p1/p2/p3/p4/file", ["p1/p2", "p1/p2/p3/p4"]) ∧
    get_subpaths "no-marker/file" = ("no-marker/file", []) := by
  refine ⟨by decide, by decide, by decide, by decide, by decide, by decide⟩

/-! Claim C5. -/

/-- C5: with a configured missing value and no keyword arguments, a
placeholder whose raw row value is the empty string resolves to the
missing value verbatim (the substitution happens inside `get_value`, on
the raw field value), while a placeholder naming a field absent from the
row raises a `KeyError`-class resolution error. -/
theorem formatter_missing_value_and_absent_key (colidx : IdxMap) (row : Row)
    (m nm : String) :
    (lookupAssoc row nm = some (Value.str "") →
      getValue colidx (some m) (.name nm) row = .ok (.val (.str m)) ∧
      resolveTemplate colidx (some m) [Tok.ph ⟨.name nm, .noconv⟩] row = .ok m) ∧
    (lookupAssoc row nm = none →
      getValue colidx (some m) (.name nm) row = .error (.keyError nm) ∧
      resolveTemplate colidx (some m) [Tok.ph ⟨.name nm, .noconv⟩] row =
        .error (.keyError nm)) := by
  constructor
  · intro h
    have hv : getValue colidx (some m) (.name nm) row = .ok (.val (.str m)) := by
      simp [getValue, h, substMissing]
    refine ⟨hv, ?_⟩
    simp [resolveTemplate, resolveTemplateAux, hv, applyConv, renderGot]
  · intro h
    have hv : getValue colidx (some m) (.name nm) row = .error (.keyError nm) := by
      simp [getValue, h]
    refine ⟨hv, ?_⟩
    simp [resolveTemplate, resolveTemplateAux, hv]

/-- Witness for C5 at a concrete row. -/
theorem formatter_missing_value_and_absent_key_instance :
    (getValue [] (some "NA") (.name "f") [("f", Value.str "")] =
      .ok (.val (.str "NA"))) ∧
    (getValue [] (some "NA") (.name "g") [("f", Value.str "")] =
      .error (.keyError "g")) :=
  ⟨((formatter_missing_value_and_absent_key [] [("f", Value.str "")] "NA" "f").1
      (by decide)).1,
   ((formatter_missing_value_and_absent_key [] [("f", Value.str "")] "NA" "g").2
      (by decide)).1⟩

/-! Claim C8. -/

/-- C8: `is_legal_metafield` accepts exactly the non-empty names whose
first character is ASCII alphanumeric and whose remaining characters are
ASCII alphanumeric, underscore, dot or dash; it accepts `a` and
`A1.b-c_d` and rejects `_a`, the empty string and `a:b`; and
`filter_legal_metafield` is the order-preserving filter by that test. -/
theorem metafield_legality_correct :
    (∀ name : String, is_legal_metafield name = true ↔
      ∃ c cs, name.toList = c :: cs ∧ isAsciiAlnum c = true ∧
        ∀ x ∈ cs, isLegalTailChar x = true) ∧
    is_legal_metafield "a" = true ∧
    is_legal_metafield "A1.b-c_d" = true ∧
    is_legal_metafield "_a" = false ∧
    is_legal_metafield "" = false ∧
    is_legal_metafield "a:b" = false ∧
    ∀ l : List String, filter_legal_metafield l = l.filter is_legal_metafield := by
  refine ⟨?_, by decide, by decide, by decide, by decide, by decide, ?_⟩
  · intro name
    unfold is_legal_metafield
    cases h : name.toList with
    | nil => simp
    | cons c cs =>
        simp only [Bool.and_eq_true, List.all_eq_true]
        exact ⟨fun hh => ⟨c, cs, rfl, hh.1, hh.2⟩,
          fun ⟨c1, cs1, hcc, h1, h2⟩ => by
            obtain ⟨hc, hcs⟩ := List.cons.injEq .. ▸ hcc
            subst hc
            subst hcs
            exact ⟨h1, h2⟩⟩
  · intro l
    induction l with
    | nil => rfl
    | cons f fs ih =>
        by_cases h : is_legal_metafield f = true
        · simp [filter_legal_metafield, h, List.filter_cons, ih]
        · simp [filter_legal_metafield, List.filter_cons, h, ih]

/-! Claim C1. -/

/-- C1 counterexample: a run whose descriptor list carries duplicate
filenames.  The filename template has no `_repindex`, so the second
resolution of the disambiguator returns the same string and the two
descriptors collide; the claim that all resolved filenames in the
descriptor list are pairwise distinct is false of the code. -/
theorem extract_duplicate_filenames_example :
    extract (fun _ _ => false) rowsDup [] ufLink ffWhoExt (some "*") [] none =
      .ok (infosDup, []) ∧
    ¬ (infosDup.map (fun i => i.filename)).Nodup := by
  refine ⟨by decide, by decide⟩

/-- C1 as amended: the descriptor list is not guaranteed duplicate-free;
what holds is the driver-layer check: `dlplugin` proceeds past the
filename check exactly when the resolved filenames are pairwise
distinct, and on any duplicate it reports the single batch-level
collision error (telling the operator to add `_repindex`) and performs
no further processing. -/
theorem dlplugin_collision_check_correct (infos : List RowInfo) :
    (dlplugin_filename_check infos = .proceed ↔
      (infos.map (fun i => i.filename)).Nodup) ∧
    (¬ (infos.map (fun i => i.filename)).Nodup →
      dlplugin_filename_check infos = .collisionError collisionMsg) := by
  have hlen : (infos.map (fun i => i.filename)).length = infos.length :=
    List.length_map ..
  have key : infos.length = (infos.map (fun i => i.filename)).dedup.length ↔
      (infos.map (fun i => i.filename)).Nodup := by
    rw [← hlen]
    constructor
    · intro h
      exact (length_dedup_eq_iff _).mp h.symm
    · intro h
      exact ((length_dedup_eq_iff _).mpr h).symm
  constructor
  · constructor
    · intro h
      by_contra hnd
      have : dlplugin_filename_check infos = .collisionError collisionMsg := by
        unfold dlplugin_filename_check
        rw [if_pos (fun heq => hnd (key.mp heq))]
      rw [this] at h
      exact PluginStep.noConfusion h
    · intro h
      unfold dlplugin_filename_check
      rw [if_neg (fun hne => hne (key.mpr h))]
  · intro h
    unfold dlplugin_filename_check
    rw [if_pos (fun heq => h (key.mp heq))]

/-- Witness for C1: the check fires on the duplicated descriptors of the
counterexample run and passes on a duplicate-free list. -/
theorem dlplugin_collision_check_instance :
    dlplugin_filename_check infosDup = .collisionError collisionMsg ∧
    dlplugin_filename_check [⟨"u1", "a.png", none, []⟩] = .proceed :=
  ⟨(dlplugin_collision_check_correct infosDup).2 (by decide),
   (dlplugin_collision_check_correct [⟨"u1", "a.png", none, []⟩]).1.mpr (by decide)⟩

/-! Claim C7. -/

theorem enumFrom_url_map (l : List String) :
    ∀ k, (List.enumFrom k l).map (fun pp => ("_url" ++ toString pp.1, pp.2)) =
      (List.range l.length).map (fun i => ("_url" ++ toString (k + i), l.getD i "")) := by
  induction l with
  | nil => intro k; rfl
  | cons a l ih =>
      intro k
      simp only [List.enumFrom, List.map_cons, List.length_cons,
        List.range_succ_eq_map, List.map_map]
      refine List.cons_eq_cons.mpr ⟨by simp, ?_⟩
      rw [ih (k + 1)]
      apply List.map_congr_left
      intro x _
      have harith : k + 1 + x = k + (x + 1) := by omega
      simp [Function.comp, harith, List.getD]

/-- C7: `get_url_names` matches the specified description of URL
decomposition: no authority gives an empty mapping; otherwise
`_url_hostname` always, and for a non-empty stripped path the keys
`_url0 .. _urlN` carry the separator-split segments in order and
`_url_basename` carries the last segment; including the two specified
concrete examples. -/
theorem get_url_names_spec_correct :
    (∀ url, get_url_names url = get_url_names_claim url) ∧
    get_url_names "http://datalad.org/for/git-users" =
      [("_url_hostname", "datalad.org"), ("_url0", "for"),
       ("_url1", "git-users"), ("_url_basename", "git-users")] ∧
    get_url_names "no-authority" = [] := by
  refine ⟨?_, by decide, by decide⟩
  intro url
  unfold get_url_names get_url_names_claim
  by_cases h1 : (urlNetlocPath url).1 = ""
  · simp [h1]
  · simp only [h1, if_false]
    by_cases h2 : stripSlashes (urlNetlocPath url).2 = ""
    · simp [h2]
    · simp only [h2, if_false]
      have henum :
          ((splitSlashChar (stripSlashes (urlNetlocPath url).2).toList).map
              String.mk).enum.map (fun pp => ("_url" ++ toString pp.1, pp.2)) =
            (List.range ((splitSlashChar
                (stripSlashes (urlNetlocPath url).2).toList).map String.mk).length).map
              (fun i => ("_url" ++ toString i,
                ((splitSlashChar (stripSlashes (urlNetlocPath url).2).toList).map
                    String.mk).getD i "")) := by
        rw [show ∀ l : List String, l.enum = List.enumFrom 0 l from fun _ => rfl]
        rw [enumFrom_url_map]
        apply List.map_congr_left
        intro x _
        simp
      rw [henum]

/-! Claim C6. -/

theorem pySplitEq1_eq (s : String) :
    pySplitEq1 s = match splitFirstEq s with
      | none => [s]
      | some fv => [fv.1, fv.2] := by
  unfold pySplitEq1 splitFirstEq
  cases s.toList.findIdx? (fun c => c = '=') <;> rfl

theorem clean_step (acc : List (String × String)) (a : String)
    (k : List (Except FmtErr String)) :
    clean_meta_args_core acc (.ok a :: k) =
      match splitFirstEq a with
      | none => .error (.valueError "meta argument is not in field=value format")
      | some fv =>
          if pyStrip fv.1 = "" then .error (.valueError "Empty field name")
          else if pyStrip fv.2 = "" then clean_meta_args_core acc k
          else clean_meta_args_core (dictSet acc (pyStrip fv.1) (pyStrip fv.2)) k := by
  conv_lhs => rw [clean_meta_args_core, pySplitEq1_eq]
  cases splitFirstEq a <;> rfl

theorem clean_core_eq_spec (args : List String) :
    ∀ acc, clean_meta_args_core acc (args.map .ok) =
      args.foldlM (fun acc arg =>
        match splitFirstEq arg with
        | none => .error (.valueError "meta argument is not in field=value format")
        | some fv =>
            let field := pyStrip fv.1
            let value := pyStrip fv.2
            if field = "" then .error (.valueError "Empty field name")
            else if value = "" then .ok acc
            else .ok (dictSet acc field value)) acc := by
  induction args with
  | nil => intro acc; rfl
  | cons a rest ih =>
      intro acc
      rw [List.map_cons, List.foldlM_cons, clean_step]
      cases hs : splitFirstEq a with
      | none => rfl
      | some fv =>
          by_cases hfe : pyStrip fv.1 = ""
          · simp only [if_pos hfe]
            rfl
          · by_cases hv : pyStrip fv.2 = ""
            · simp only [if_neg hfe, if_pos hv]
              exact ih acc
            · simp only [if_neg hfe, if_neg hv]
              exact ih (dictSet acc (pyStrip fv.1) (pyStrip fv.2))

/-- C6 counterexample: on the argument `"a= "` the value after the first
equals sign is the single space, which is non-empty, so the claim as
stated keeps the pair `("a", " ")`; the code strips the pieces first and
silently drops the argument. -/
theorem clean_meta_args_unstripped_counterexample :
    clean_meta_args ["a= "] = .ok [] ∧
    clean_meta_args_claimed ["a= "] = .ok [("a", " ")] ∧
    clean_meta_args ["a= "] ≠ clean_meta_args_claimed ["a= "] := by
  refine ⟨by decide, by decide, by decide⟩

/-- C6 as amended: `clean_meta_args` behaves exactly as claimed once both
pieces of each `field=value` argument are whitespace-stripped before the
checks: fatal error on a missing `=`, fatal error on an empty stripped
name, silent skip of an empty stripped value, and assignment of stripped
name to stripped value otherwise. -/
theorem clean_meta_args_contract_stripped (args : List String) :
    clean_meta_args args = clean_meta_args_spec args := by
  unfold clean_meta_args clean_meta_args_spec
  exact clean_core_eq_spec args []

/-! Claim C9. -/

/-- C9 counterexample: the instance given in the claim (template
`{name}{_repindex}`, rows named `a1`, `a`, `a`) does not produce a
collision: the run yields `a10`, `a0`, `a1`, which are pairwise
distinct (the first resolution for `a1` already embeds the index 0, giving
`a10`, not `a1`). -/
theorem repformatter_example_rows_distinct :
    repFormatRun [] none tmplNameRep [rowName "a1", rowName "a", rowName "a"] =
      .ok ["a10", "a0", "a1"] ∧
    (["a10", "a0", "a1"] : List String).Nodup := by
  refine ⟨by decide, by decide⟩

/-- C9 as amended: `RepFormatter.format` records only first-resolution
results: on a collision the re-resolved result is returned without being
looked up in the `repeats` table and without being added to it (only the
base string count changes), and consequently there are runs whose
outputs collide — e.g. one `a1` row followed by eleven `a` rows under
`{name}{_repindex}` produces `a10` twice. -/
theorem repformatter_second_resolution_unrecorded
    (colidx : IdxMap) (missing : Option String) (tmpl : Template) (row : Row)
    (repeats : Repeats) (base res2 : String) (c : Nat)
    (h1 : resolveWithRep colidx missing tmpl row 0 = .ok base)
    (h2 : lookupAssoc repeats base = some c)
    (h3 : resolveWithRep colidx missing tmpl row (c + 1) = .ok res2) :
    repformat colidx missing tmpl row repeats =
      .ok (res2, dictSet repeats base (c + 1)) ∧
    (res2 ≠ base →
      lookupAssoc (dictSet repeats base (c + 1)) res2 = lookupAssoc repeats res2) ∧
    repFormatRun [] none tmplNameRep rows12 = .ok outs12 ∧
    ¬ outs12.Nodup := by
  refine ⟨?_, ?_, by decide, by decide⟩
  · unfold repformat
    simp only [h1, h2, h3]
  · intro hne
    exact lookupAssoc_dictSet_ne repeats base (c + 1) res2 hne

/-- Witness for C9 at a concrete collision state. -/
theorem repformatter_second_resolution_unrecorded_instance :
    repformat [] none tmplNameRep (rowName "a") [("a0", 0)] =
      .ok ("a1", dictSet [("a0", 0)] "a0" 1) ∧
    ("a1" ≠ "a0" →
      lookupAssoc (dictSet [("a0", 0)] "a0" 1) "a1" =
        lookupAssoc [("a0", 0)] "a1") ∧
    repFormatRun [] none tmplNameRep rows12 = .ok outs12 ∧
    ¬ outs12.Nodup :=
  repformatter_second_resolution_unrecorded [] none tmplNameRep (rowName "a")
    [("a0", 0)] "a0" "a1" 0 (by decide) (by decide) (by decide)

/-! Claim C2. -/

theorem repRunAux_const_base (colidx : IdxMap) (missing : Option String)
    (tmpl : Template) (f : Nat → String) :
    ∀ (rows : List Row) (c : Nat),
      (∀ r ∈ rows, resolveWithRep colidx missing tmpl r 0 = .ok (f 0)) →
      (∀ p (hp : p < rows.length),
        resolveWithRep colidx missing tmpl (rows.get ⟨p, hp⟩) (c + 1 + p) =
          .ok (f (c + 1 + p))) →
      repFormatRunAux colidx missing tmpl [(f 0, c)] rows =
        .ok ((List.range rows.length).map (fun p => f (c + 1 + p))) := by
  intro rows
  induction rows with
  | nil => intro c _ _; rfl
  | cons r rs ih =>
      intro c h0 hk
      have hbase : resolveWithRep colidx missing tmpl r 0 = .ok (f 0) :=
        h0 r (List.mem_cons_self ..)
      have hsec : resolveWithRep colidx missing tmpl r (c + 1) = .ok (f (c + 1)) := by
        have := hk 0 (by simp)
        simpa using this
      have hstep : repformat colidx missing tmpl r [(f 0, c)] =
          .ok (f (c + 1), [(f 0, c + 1)]) := by
        unfold repformat
        simp only [hbase]
        have hlk : lookupAssoc [(f 0, c)] (f 0) = some c := by simp [lookupAssoc]
        simp only [hlk, hsec]
        simp [dictSet]
      have hrest := ih (c + 1)
        (fun r' hr' => h0 r' (List.mem_cons_of_mem _ hr'))
        (fun p hp => by
          have hlt : p + 1 < (r :: rs).length := by simpa using Nat.succ_lt_succ hp
          have := hk (p + 1) hlt
          have harith : c + 1 + (p + 1) = c + 1 + 1 + p := by omega
          rw [harith] at this
          simpa using this)
      unfold repFormatRunAux
      simp only [hstep, hrest]
      simp only [List.length_cons, List.range_succ_eq_map, List.map_cons,
        List.map_map]
      refine congrArg Except.ok (List.cons_eq_cons.mpr ⟨by simp, ?_⟩)
      apply List.map_congr_left
      intro x _
      have harith : c + 1 + 1 + x = c + 1 + (x + 1) := by omega
      simp [Function.comp, harith]

/-- C2: for a run of rows that all resolve to the same base string under a
template whose resolution is a function `f` of the repetition index (the
shape a template containing `_repindex` induces, injective on the indices
used), the disambiguator run yields exactly `f 0, f 1, .., f (N-1)` in
row order — the embedded indices are `0 .. N-1` and later duplicates get
higher indices — and the outputs are pairwise distinct. -/
theorem repformatter_monotone (colidx : IdxMap) (missing : Option String)
    (tmpl : Template) (rows : List Row) (f : Nat → String)
    (hf : ∀ r ∈ rows, ∀ k, k < rows.length →
      resolveWithRep colidx missing tmpl r k = .ok (f k))
    (hinj : ∀ i, i < rows.length → ∀ j, j < rows.length → f i = f j → i = j) :
    repFormatRun colidx missing tmpl rows =
      .ok ((List.range rows.length).map f) ∧
    ((List.range rows.length).map f).Nodup := by
  constructor
  · cases rows with
    | nil => rfl
    | cons r rs =>
        have hbase : resolveWithRep colidx missing tmpl r 0 = .ok (f 0) :=
          hf r (List.mem_cons_self ..) 0 (Nat.succ_pos _)
        have hstep : repformat colidx missing tmpl r [] = .ok (f 0, [(f 0, 0)]) := by
          unfold repformat
          simp only [hbase]
          rfl
        have hrest := repRunAux_const_base colidx missing tmpl f rs 0
          (fun r' hr' => hf r' (List.mem_cons_of_mem _ hr') 0 (Nat.succ_pos _))
          (fun p hp => by
            have hlt : p + 1 < (r :: rs).length := by simpa using Nat.succ_lt_succ hp
            have hmem : (r :: rs).get ⟨p + 1, hlt⟩ ∈ (r :: rs) := List.get_mem ..
            have := hf ((r :: rs).get ⟨p + 1, hlt⟩) hmem (p + 1) hlt
            have harith : (0 : Nat) + 1 + p = p + 1 := by omega
            rw [harith]
            simpa using this)
        unfold repFormatRun repFormatRunAux
        simp only [hstep, hrest]
        simp only [List.length_cons, List.range_succ_eq_map, List.map_cons,
          List.map_map]
        refine congrArg Except.ok (List.cons_eq_cons.mpr ⟨rfl, ?_⟩)
        apply List.map_congr_left
        intro x _
        have harith : (0 : Nat) + 1 + x = x + 1 := by omega
        simp [Function.comp, harith]
  · refine (List.nodup_range _).map_on ?_
    intro x hx y hy hxy
    exact hinj x (List.mem_range.mp hx) y (List.mem_range.mp hy) hxy

/-- Witness for C2: three identical rows under `{name}{_repindex}` yield
`a0`, `a1`, `a2`. -/
theorem repformatter_monotone_instance :
    repFormatRun [] none tmplNameRep rowsAAA =
      .ok ((List.range rowsAAA.length).map repA) ∧
    ((List.range rowsAAA.length).map repA).Nodup :=
  repformatter_monotone [] none tmplNameRep rowsAAA repA (by decide) (by decide)

/-! Claim C10. -/

/-- C10: on an empty record set, `extract` raises an uncaught `IndexError`
while deriving auto-metadata (it reads the field names of the first record)
for every `exclude_autometa` other than `*` and the empty string; with
`*` or the empty string it returns an empty descriptor list and an empty
boundary set. -/
theorem extract_empty_rows_behavior (reSearch : String → String → Bool)
    (colidx : IdxMap) (uf ff : Template) (meta : List Template)
    (missing : Option String) (excl : Option String)
    (h1 : excl ≠ some "*") (h2 : excl ≠ some "") :
    extract reSearch [] colidx uf ff excl meta missing = .error .indexError ∧
    extract reSearch [] colidx uf ff (some "*") meta missing = .ok ([], []) ∧
    extract reSearch [] colidx uf ff (some "") meta missing = .ok ([], []) := by
  refine ⟨?_, ?_, ?_⟩
  · unfold extract
    rw [if_neg (not_or.mpr ⟨h1, h2⟩)]
    rfl
  · unfold extract
    rw [if_pos (Or.inl rfl)]
    split
    · rename_i e heq
      exact Except.noConfusion heq
    · rename_i auto heq
      obtain rfl : auto = [] := (Except.ok.inj heq).symm
      simp only [extractLoop]
      split <;> rfl
  · unfold extract
    rw [if_pos (Or.inr rfl)]
    split
    · rename_i e heq
      exact Except.noConfusion heq
    · rename_i auto heq
      obtain rfl : auto = [] := (Except.ok.inj heq).symm
      simp only [extractLoop]
      split <;> rfl

/-- Witness for C10 with `exclude_autometa = None`. -/
theorem extract_empty_rows_instance :
    extract (fun _ _ => false) [] [] [] [] none [] none = .error .indexError ∧
    extract (fun _ _ => false) [] [] [] [] (some "*") [] none = .ok ([], []) ∧
    extract (fun _ _ => false) [] [] [] [] (some "") [] none = .ok ([], []) :=
  extract_empty_rows_behavior (fun _ _ => false) [] [] [] [] none none
    (by decide) (by decide)

/-! Claim C4. -/

theorem extractLoop_char (colidx : IdxMap) (missing : Option String)
    (uf : Template) (fm : List Template) :
    ∀ rows rws pis, extractLoop colidx missing uf fm rows = .ok (rws, pis) →
      rws = rows.filter (keepRow colidx missing uf) ∧
      List.Forall₂ (fun r pi' =>
        resolveTemplate colidx missing uf r = .ok pi'.url ∧
        pi'.url ≠ "" ∧ missing ≠ some pi'.url) rws pis := by
  intro rows
  induction rows with
  | nil =>
      intro rws pis h
      unfold extractLoop at h
      obtain ⟨h1, h2⟩ := Prod.mk.inj (Except.ok.inj h)
      subst h1
      subst h2
      exact ⟨rfl, List.Forall₂.nil⟩
  | cons row rest ih =>
      intro rws pis h
      unfold extractLoop at h
      cases hres : resolveTemplate colidx missing uf row with
      | error e =>
          simp only [hres] at h
          exact Except.noConfusion h
      | ok url =>
          simp only [hres] at h
          by_cases hskip : url = "" ∨ missing = some url
          · rw [if_pos hskip] at h
            obtain ⟨h1, h2⟩ := ih rws pis h
            have hkeep : keepRow colidx missing uf row = false := by
              unfold keepRow
              simp only [hres, if_pos hskip]
            refine ⟨?_, h2⟩
            rw [List.filter_cons]
            simp [hkeep, h1]
          · rw [if_neg hskip] at h
            cases hm : clean_meta_args_core []
                (fm.map fun t => resolveTemplate colidx missing t row) with
            | error e =>
                simp only [hm] at h
                exact Except.noConfusion h
            | ok margs =>
                simp only [hm] at h
                cases hrec : extractLoop colidx missing uf fm rest with
                | error e =>
                    simp only [hrec] at h
                    exact Except.noConfusion h
                | ok rp =>
                    obtain ⟨rs, is⟩ := rp
                    simp only [hrec] at h
                    obtain ⟨h1, h2⟩ := Prod.mk.inj (Except.ok.inj h)
                    subst h1
                    subst h2
                    obtain ⟨hr, hF⟩ := ih rs is hrec
                    have hkeep : keepRow colidx missing uf row = true := by
                      unfold keepRow
                      simp only [hres, if_neg hskip]
                    refine ⟨?_, ?_⟩
                    · rw [List.filter_cons]
                      simp [hkeep, hr]
                    · refine List.Forall₂.cons ⟨hres, ?_, ?_⟩ hF
                      · exact (not_or.mp hskip).1
                      · exact (not_or.mp hskip).2

theorem formatFilenames_pairs (colidx : IdxMap) (missing : Option String)
    (ff : Template) :
    ∀ (rows : List Row) (pis : List PartialInfo) (reps : Repeats)
      (sub : List String) (ris : List RowInfo) (subF : List String),
      rows.length = pis.length →
      formatFilenamesAux colidx missing ff reps sub rows pis = .ok (ris, subF) →
      List.Forall₂ (fun pi' i => i.url = pi'.url ∧ i.meta_args = pi'.meta_args)
        pis ris := by
  intro rows
  induction rows with
  | nil =>
      intro pis reps sub ris subF hlen h
      cases pis with
      | nil =>
          unfold formatFilenamesAux at h
          obtain ⟨h1, h2⟩ := Prod.mk.inj (Except.ok.inj h)
          subst h1
          exact List.Forall₂.nil
      | cons p ps => simp at hlen
  | cons row rows ih =>
      intro pis reps sub ris subF hlen h
      cases pis with
      | nil => simp at hlen
      | cons pi' pis =>
          unfold formatFilenamesAux at h
          cases hrf : repformat colidx missing ff row reps with
          | error e =>
              simp only [hrf] at h
              exact Except.noConfusion h
          | ok sr =>
              obtain ⟨fname, reps2⟩ := sr
              simp only [hrf] at h
              cases hrec : formatFilenamesAux colidx missing ff reps2
                  (unionAppend sub (get_subpaths fname).2) rows pis with
              | error e =>
                  simp only [hrec] at h
                  exact Except.noConfusion h
              | ok rr =>
                  obtain ⟨ris2, subF2⟩ := rr
                  simp only [hrec] at h
                  obtain ⟨h1, h2⟩ := Prod.mk.inj (Except.ok.inj h)
                  subst h1
                  exact List.Forall₂.cons ⟨rfl, rfl⟩
                    (ih pis reps2 _ ris2 subF2 (by simpa using hlen) hrec)

/-- C4: whenever `extract` succeeds, the URL pass has kept exactly the
rows whose resolved URL is non-empty and different from the missing
value, in source order (the rest are dropped before any filename
resolution, which runs only on the kept rows), and the returned
descriptor list carries exactly one descriptor per surviving row in
source order, with the resolved URL of that row. -/
theorem extract_drops_empty_urls (reSearch : String → String → Bool)
    (rows : List Row) (colidx : IdxMap) (uf ff : Template)
    (excl : Option String) (meta : List Template) (missing : Option String)
    (infos : List RowInfo) (sub : List String)
    (h : extract reSearch rows colidx uf ff excl meta missing = .ok (infos, sub)) :
    ∃ (fm : List Template) (pis : List PartialInfo),
      extractLoop colidx missing uf fm rows =
        .ok (rows.filter (keepRow colidx missing uf), pis) ∧
      List.Forall₂ (fun r pi' =>
        resolveTemplate colidx missing uf r = .ok pi'.url ∧
        pi'.url ≠ "" ∧ missing ≠ some pi'.url)
        (rows.filter (keepRow colidx missing uf)) pis ∧
      List.Forall₂ (fun pi' i => i.url = pi'.url ∧ i.meta_args = pi'.meta_args)
        pis infos ∧
      infos.length = (rows.filter (keepRow colidx missing uf)).length := by
  unfold extract at h
  split at h
  · exact Except.noConfusion h
  · rename_i auto heq
    split at h
    · exact Except.noConfusion h
    · rename_i rws pis heq2
      obtain ⟨hr, hF⟩ := extractLoop_char colidx missing uf (meta ++ auto) rows rws pis heq2
      subst hr
      have hlenF : (rows.filter (keepRow colidx missing uf)).length = pis.length :=
        hF.length_eq
      have hPairs : List.Forall₂
          (fun pi' i => i.url = pi'.url ∧ i.meta_args = pi'.meta_args) pis infos := by
        refine formatFilenames_pairs colidx missing ff _ pis [] [] infos sub ?_ h
        cases hc : (fmtNames ff).any (fun n => strStartsWith "_url" n) with
        | true => simp [hc, List.length_zipWith, hlenF]
        | false => simp [hc, hlenF]
      exact ⟨meta ++ auto, pis, heq2, hF, hPairs,
        (hlenF.trans hPairs.length_eq).symm⟩

/-- Witness for C4: a two-row run where the URL of the second row resolves to
the empty string and is dropped. -/
theorem extract_drops_empty_urls_instance :
    ∃ (fm : List Template) (pis : List PartialInfo),
      extractLoop [] none ufLink fm
          [[("link", Value.str "u1"), ("who", Value.str "a")],
           [("link", Value.str ""), ("who", Value.str "b")]] =
        .ok ([[("link", Value.str "u1"), ("who", Value.str "a")],
              [("link", Value.str ""), ("who", Value.str "b")]].filter
                (keepRow [] none ufLink), pis) ∧
      List.Forall₂ (fun r pi' =>
        resolveTemplate [] none ufLink r = .ok pi'.url ∧
        pi'.url ≠ "" ∧ (none : Option String) ≠ some pi'.url)
        ([[("link", Value.str "u1"), ("who", Value.str "a")],
          [("link", Value.str ""), ("who", Value.str "b")]].filter
            (keepRow [] none ufLink)) pis ∧
      List.Forall₂ (fun pi' i => i.url = pi'.url ∧ i.meta_args = pi'.meta_args)
        pis ([⟨"u1", "a", none, []⟩] : List RowInfo) ∧
      ([⟨"u1", "a", none, []⟩] : List RowInfo).length =
        ([[("link", Value.str "u1"), ("who", Value.str "a")],
          [("link", Value.str ""), ("who", Value.str "b")]].filter
            (keepRow [] none ufLink)).length :=
  extract_drops_empty_urls (fun _ _ => false)
    [[("link", Value.str "u1"), ("who", Value.str "a")],
     [("link", Value.str ""), ("who", Value.str "b")]]
    [] ufLink [Tok.ph ⟨FieldRef.name "who", Conv.noconv⟩] (some "*") [] none
    [⟨"u1", "a", none, []⟩] [] (by decide)
